import Mathlib

/-!
Verification of the SoundLab Pro session-generation pipeline (src/app.py).

The script builds a base three-tone signal over a time grid, threads it
through 13 optional effect stages, normalizes the final left/right buffers
and encodes them as interleaved 16-bit PCM.  The Python code binds
`left = right = signal`, so all three names alias ONE numpy array until a
stage rebinds `left`/`right` (panning #4, binaural #6, lowpass #10,
highpass #11, distortion #12).  In-place operators (`*=`, `+=`) on any
alias mutate the shared array.  The embedding models this explicitly: a
`PyState` carries the `signal` buffer and a `Channels` value that is
either `shared` (left and right still alias signal) or `split L R`.

Buffers are total functions `ℕ → ℝ`; only indices below the sample count
are meaningful.  Float arithmetic is modelled as real arithmetic; the
int16 cast is modelled as C-style truncation toward zero followed by a
two's-complement wrap modulo 2^16, which is what `np.int16` performs.
-/

namespace SoundLab

/-- Session parameters collected from the sliders in src/app.py
(frequencies 20..20000, duration 1..60 minutes, AM rate 0..30,
pulse rate 1..20, binaural difference 0..50). -/
structure Params where
  freq1 : ℕ
  freq2 : ℕ
  freq3 : ℕ
  durationMin : ℕ
  amRate : ℝ
  pulseRate : ℕ
  bbDiff : ℕ

/-- The 13 effect checkboxes, in pipeline order. -/
structure FxConfig where
  am : Bool
  reverb : Bool
  echo : Bool
  panning : Bool
  pulses : Bool
  binaural : Bool
  chorus : Bool
  flanger : Bool
  tremolo : Bool
  lowpass : Bool
  highpass : Bool
  distortion : Bool
  noiseLayer : Bool

/-- Whether `left`/`right` still alias the `signal` array (as after
`left = right = signal`), or have been rebound to their own arrays. -/
inductive Channels where
  | shared : Channels
  | split : (ℕ → ℝ) → (ℕ → ℝ) → Channels

/-- The mutable state of the script: the `signal` buffer plus the
aliasing status of `left`/`right`. -/
structure PyState where
  sig : ℕ → ℝ
  ch : Channels

/-- The value currently readable through the name `left`. -/
noncomputable def leftVal (s : PyState) : ℕ → ℝ :=
  match s.ch with
  | Channels.shared => s.sig
  | Channels.split L _ => L

/-- The value currently readable through the name `right`. -/
noncomputable def rightVal (s : PyState) : ℕ → ℝ :=
  match s.ch with
  | Channels.shared => s.sig
  | Channels.split _ R => R

/-- duration = duration_min * 60 (src/app.py line 20). -/
def durationSec (dm : ℕ) : ℕ := dm * 60

/-- int(sample_rate * duration) with sample_rate = 44100 (line 22). -/
def sampleCount (dm : ℕ) : ℕ := 44100 * durationSec dm

/-- np.linspace(0, duration, N, endpoint=False)[i] = i * duration / N. -/
noncomputable def tGrid (dm : ℕ) (i : ℕ) : ℝ :=
  (i : ℝ) * (durationSec dm : ℝ) / (sampleCount dm : ℝ)

/-- signal = (sin(2π f1 t) + sin(2π f2 t) + sin(2π f3 t)) / 3 (lines 25-28). -/
noncomputable def baseSignal (p : Params) : ℕ → ℝ := fun i =>
  (Real.sin (2 * Real.pi * (p.freq1 : ℝ) * tGrid p.durationMin i) +
   Real.sin (2 * Real.pi * (p.freq2 : ℝ) * tGrid p.durationMin i) +
   Real.sin (2 * Real.pi * (p.freq3 : ℝ) * tGrid p.durationMin i)) / 3

/-- left = right = signal (line 29): all three names alias one array. -/
noncomputable def initState (p : Params) : PyState :=
  ⟨baseSignal p, Channels.shared⟩

/-- np.sign on reals: -1 / 0 / 1. -/
noncomputable def npSign (x : ℝ) : ℝ :=
  if x < 0 then -1 else if x = 0 then 0 else 1

/-- am = 0.5 * (1 + sin(2π rate t)) (line 65). -/
noncomputable def amArr (p : Params) (i : ℕ) : ℝ :=
  0.5 * (1 + Real.sin (2 * Real.pi * p.amRate * tGrid p.durationMin i))

/-- pulse = 0.5 * (1 + sign(sin(2π pulse_rate t))) (line 84). -/
noncomputable def pulseArr (p : Params) (i : ℕ) : ℝ :=
  0.5 * (1 + npSign (Real.sin (2 * Real.pi * (p.pulseRate : ℝ) * tGrid p.durationMin i)))

/-- trem = 0.5 * (1 + sin(2π 5 t)) (line 102). -/
noncomputable def tremArr (p : Params) (i : ℕ) : ℝ :=
  0.5 * (1 + Real.sin (2 * Real.pi * 5 * tGrid p.durationMin i))

/-- pan = sin(2π 0.25 t) (line 79). -/
noncomputable def panArr (p : Params) (i : ℕ) : ℝ :=
  Real.sin (2 * Real.pi * 0.25 * tGrid p.durationMin i)

/-- Index map of np.roll(x, k) on a length-N buffer: out[i] = x[(i-k) mod N]. -/
def rollIdx (N k i : ℕ) : ℕ := (i + (N - k % N)) % N

/-- Stage 1, Amplitude Modulation: `signal *= am`, in place (line 66). -/
noncomputable def stage1 (p : Params) (s : PyState) : PyState :=
  ⟨fun i => s.sig i * amArr p i, s.ch⟩

/-- Truncated full convolution with the reverb decay kernel
exp(-0.0005 i): np.convolve(signal, decay, 'full')[:N][i] for i < N
sums x[j] * decay[i-j] over j ≤ i (line 70). -/
noncomputable def reverbConv (x : ℕ → ℝ) : ℕ → ℝ := fun i =>
  ∑ j in Finset.range (i + 1), x j * Real.exp (-0.0005 * ((i - j : ℕ) : ℝ))

/-- Stage 2, Reverb: `signal += conv * 0.5`, in place (lines 69-70). -/
noncomputable def stage2 (s : PyState) : PyState :=
  ⟨fun i => s.sig i + reverbConv s.sig i * 0.5, s.ch⟩

/-- delay = int(0.3 * 44100) (line 73). -/
def echoDelay : ℕ := 13230

/-- Stage 3, Echo: `signal += 0.5 * echo_sig` with
echo_sig[i] = signal[i-delay] for i ≥ delay, else 0 (lines 73-76). -/
noncomputable def stage3 (s : PyState) : PyState :=
  ⟨fun i => s.sig i + 0.5 * (if echoDelay ≤ i then s.sig (i - echoDelay) else 0), s.ch⟩

/-- Stage 4, Stereo Panning: `left = (1-pan)*signal; right = (1+pan)*signal`
rebinds left/right to fresh arrays; signal untouched (lines 79-81). -/
noncomputable def stage4 (p : Params) (s : PyState) : PyState :=
  ⟨s.sig, Channels.split (fun i => (1 - panArr p i) * s.sig i)
                         (fun i => (1 + panArr p i) * s.sig i)⟩

/-- Stage 5, Isochronic Pulses: `left *= pulse; right *= pulse`, both in
place (lines 84-86).  While left/right still alias signal, the two
statements multiply the single shared array by pulse twice. -/
noncomputable def stage5 (p : Params) (s : PyState) : PyState :=
  match s.ch with
  | Channels.shared =>
      ⟨fun i => s.sig i * pulseArr p i * pulseArr p i, Channels.shared⟩
  | Channels.split L R =>
      ⟨s.sig, Channels.split (fun i => L i * pulseArr p i) (fun i => R i * pulseArr p i)⟩

/-- Stage 6, Binaural Beats: rebinds `left = sin(2π f1 t)`,
`right = sin(2π (f1+diff) t)`; ignores all prior state (lines 89-90). -/
noncomputable def stage6 (p : Params) (s : PyState) : PyState :=
  ⟨s.sig, Channels.split
      (fun i => Real.sin (2 * Real.pi * (p.freq1 : ℝ) * tGrid p.durationMin i))
      (fun i => Real.sin (2 * Real.pi * ((p.freq1 : ℝ) + (p.bbDiff : ℝ)) * tGrid p.durationMin i))⟩

/-- One chorus statement: `x += 0.02 * np.roll(x, 200)` (lines 93-94). -/
noncomputable def chorusOnce (N : ℕ) (x : ℕ → ℝ) : ℕ → ℝ := fun i =>
  x i + 0.02 * x (rollIdx N 200 i)

/-- Stage 7, Chorus: both statements are in place; while aliased the
shared array receives the transform twice, sequentially. -/
noncomputable def stage7 (N : ℕ) (s : PyState) : PyState :=
  match s.ch with
  | Channels.shared => ⟨chorusOnce N (chorusOnce N s.sig), Channels.shared⟩
  | Channels.split L R => ⟨s.sig, Channels.split (chorusOnce N L) (chorusOnce N R)⟩

/-- flanged = np.roll(signal, 400) * 0.5 (line 97), materialized before
the in-place additions. -/
noncomputable def flangedOf (N : ℕ) (x : ℕ → ℝ) : ℕ → ℝ := fun i =>
  x (rollIdx N 400 i) * 0.5

/-- Stage 8, Flanger: `left += flanged; right += flanged` in place; while
aliased the shared array receives flanged twice (lines 97-99). -/
noncomputable def stage8 (N : ℕ) (s : PyState) : PyState :=
  match s.ch with
  | Channels.shared =>
      ⟨fun i => s.sig i + flangedOf N s.sig i + flangedOf N s.sig i, Channels.shared⟩
  | Channels.split L R =>
      ⟨s.sig, Channels.split (fun i => L i + flangedOf N s.sig i)
                             (fun i => R i + flangedOf N s.sig i)⟩

/-- Stage 9, Tremolo: `left *= trem; right *= trem`, in place (lines 102-104). -/
noncomputable def stage9 (p : Params) (s : PyState) : PyState :=
  match s.ch with
  | Channels.shared =>
      ⟨fun i => s.sig i * tremArr p i * tremArr p i, Channels.shared⟩
  | Channels.split L R =>
      ⟨s.sig, Channels.split (fun i => L i * tremArr p i) (fun i => R i * tremArr p i)⟩

/-- np.convolve(x, np.ones(100)/100, 'same')[i] on a length-N buffer:
the mean of x over window [i-50, i+49] ∩ [0, N) (lines 107-109). -/
noncomputable def lowpassConv (N : ℕ) (x : ℕ → ℝ) : ℕ → ℝ := fun i =>
  (∑ j in Finset.range N, if i ≤ j + 50 ∧ j ≤ i + 49 then x j else 0) / 100

/-- Stage 10, Lowpass: rebinds left then right; when aliased, both reads
see the unmutated signal, so both channels get equal fresh arrays. -/
noncomputable def stage10 (N : ℕ) (s : PyState) : PyState :=
  match s.ch with
  | Channels.shared =>
      ⟨s.sig, Channels.split (lowpassConv N s.sig) (lowpassConv N s.sig)⟩
  | Channels.split L R =>
      ⟨s.sig, Channels.split (lowpassConv N L) (lowpassConv N R)⟩

/-- Stage 11, Highpass: scipy's butter(1, 0.01, 'high') + filtfilt is an
external library routine; it is modelled as an arbitrary deterministic
transform `hp` supplied as a parameter (no claim depends on its
numerics).  Like the other filters it rebinds left then right. -/
noncomputable def stage11 (hp : (ℕ → ℝ) → (ℕ → ℝ)) (s : PyState) : PyState :=
  match s.ch with
  | Channels.shared => ⟨s.sig, Channels.split (hp s.sig) (hp s.sig)⟩
  | Channels.split L R => ⟨s.sig, Channels.split (hp L) (hp R)⟩

/-- Stage 12, Distortion: rebinds `left = tanh(left*5); right = tanh(right*5)`
(lines 117-118). -/
noncomputable def stage12 (s : PyState) : PyState :=
  match s.ch with
  | Channels.shared =>
      ⟨s.sig, Channels.split (fun i => Real.tanh (s.sig i * 5)) (fun i => Real.tanh (s.sig i * 5))⟩
  | Channels.split L R =>
      ⟨s.sig, Channels.split (fun i => Real.tanh (L i * 5)) (fun i => Real.tanh (R i * 5))⟩

/-- Stage 13, Noise Layer: one draw `noise = np.random.normal(0, 0.03, N)`
(modelled as an input stream), then `left += noise; right += noise`, both
in place, the SAME array added to each (lines 121-123); while aliased the
shared array receives it twice. -/
noncomputable def stage13 (noise : ℕ → ℝ) (s : PyState) : PyState :=
  match s.ch with
  | Channels.shared =>
      ⟨fun i => s.sig i + noise i + noise i, Channels.shared⟩
  | Channels.split L R =>
      ⟨s.sig, Channels.split (fun i => L i + noise i) (fun i => R i + noise i)⟩

/-- Guarded stage 1: runs only when the AM checkbox is on AND am_rate > 0
(line 64). -/
noncomputable def step1 (p : Params) (cfg : FxConfig) (s : PyState) : PyState :=
  if cfg.am = true ∧ 0 < p.amRate then stage1 p s else s

/-- Guarded stage 2. -/
noncomputable def step2 (cfg : FxConfig) (s : PyState) : PyState :=
  if cfg.reverb = true then stage2 s else s

/-- Guarded stage 3. -/
noncomputable def step3 (cfg : FxConfig) (s : PyState) : PyState :=
  if cfg.echo = true then stage3 s else s

/-- Guarded stage 4. -/
noncomputable def step4 (p : Params) (cfg : FxConfig) (s : PyState) : PyState :=
  if cfg.panning = true then stage4 p s else s

/-- Guarded stage 5. -/
noncomputable def step5 (p : Params) (cfg : FxConfig) (s : PyState) : PyState :=
  if cfg.pulses = true then stage5 p s else s

/-- Guarded stage 6. -/
noncomputable def step6 (p : Params) (cfg : FxConfig) (s : PyState) : PyState :=
  if cfg.binaural = true then stage6 p s else s

/-- Guarded stage 7. -/
noncomputable def step7 (p : Params) (cfg : FxConfig) (s : PyState) : PyState :=
  if cfg.chorus = true then stage7 (sampleCount p.durationMin) s else s

/-- Guarded stage 8. -/
noncomputable def step8 (p : Params) (cfg : FxConfig) (s : PyState) : PyState :=
  if cfg.flanger = true then stage8 (sampleCount p.durationMin) s else s

/-- Guarded stage 9. -/
noncomputable def step9 (p : Params) (cfg : FxConfig) (s : PyState) : PyState :=
  if cfg.tremolo = true then stage9 p s else s

/-- Guarded stage 10. -/
noncomputable def step10 (p : Params) (cfg : FxConfig) (s : PyState) : PyState :=
  if cfg.lowpass = true then stage10 (sampleCount p.durationMin) s else s

/-- Guarded stage 11. -/
noncomputable def step11 (hp : (ℕ → ℝ) → (ℕ → ℝ)) (cfg : FxConfig) (s : PyState) : PyState :=
  if cfg.highpass = true then stage11 hp s else s

/-- Guarded stage 12. -/
noncomputable def step12 (cfg : FxConfig) (s : PyState) : PyState :=
  if cfg.distortion = true then stage12 s else s

/-- Guarded stage 13. -/
noncomputable def step13 (cfg : FxConfig) (noise : ℕ → ℝ) (s : PyState) : PyState :=
  if cfg.noiseLayer = true then stage13 noise s else s

/-- State after stages 1-3 (the mono-only effects). -/
noncomputable def run3 (p : Params) (cfg : FxConfig) : PyState :=
  step3 cfg (step2 cfg (step1 p cfg (initState p)))

/-- State after stage 5. -/
noncomputable def run5 (p : Params) (cfg : FxConfig) : PyState :=
  step5 p cfg (step4 p cfg (run3 p cfg))

/-- State after stage 6. -/
noncomputable def run6 (p : Params) (cfg : FxConfig) : PyState :=
  step6 p cfg (run5 p cfg)

/-- State after stage 7 (the state the flanger reads). -/
noncomputable def run7 (p : Params) (cfg : FxConfig) : PyState :=
  step7 p cfg (run6 p cfg)

/-- State after stage 8. -/
noncomputable def run8 (p : Params) (cfg : FxConfig) : PyState :=
  step8 p cfg (run7 p cfg)

/-- State after stage 12 (all deterministic effects). -/
noncomputable def run12 (p : Params) (cfg : FxConfig) (hp : (ℕ → ℝ) → ℕ → ℝ) : PyState :=
  step12 cfg (step11 hp cfg (step10 p cfg (step9 p cfg (run8 p cfg))))

/-- State after the whole effect chain (stage 13 consumes the RNG draw). -/
noncomputable def runChain (p : Params) (cfg : FxConfig) (hp : (ℕ → ℝ) → ℕ → ℝ)
    (noise : ℕ → ℝ) : PyState :=
  step13 cfg noise (run12 p cfg hp)

/-- The flanged array computed by stage 8 when the flanger is enabled:
np.roll(signal, 400) * 0.5 from the signal buffer as it stands at
stage 8 (line 97). -/
noncomputable def flangerContribution (p : Params) (cfg : FxConfig) : ℕ → ℝ :=
  flangedOf (sampleCount p.durationMin) (run7 p cfg).sig

/-- max_val = max(np.max(|left|), np.max(|right|)) (line 126), as a
nonnegative real over the first N samples. -/
noncomputable def peakVal (N : ℕ) (l r : ℕ → ℝ) : NNReal :=
  (Finset.range N).sup fun i => ‖l i‖₊ ⊔ ‖r i‖₊

/-- Normalization (lines 126-129): max_val is computed from the current
left/right values; when it is positive, `left /= max_val` and
`right /= max_val` are IN-PLACE divisions, so while left/right still
alias the signal array the single shared buffer is divided twice (once
per statement), and after a split each channel's own array is divided
once.  When max_val = 0 nothing is touched. -/
noncomputable def normalizeState (N : ℕ) (s : PyState) : PyState :=
  if 0 < peakVal N (leftVal s) (rightVal s) then
    match s.ch with
    | Channels.shared =>
        ⟨fun i => s.sig i / (peakVal N (leftVal s) (rightVal s) : ℝ)
            / (peakVal N (leftVal s) (rightVal s) : ℝ), Channels.shared⟩
    | Channels.split L R =>
        ⟨s.sig,
          Channels.split (fun i => L i / (peakVal N (leftVal s) (rightVal s) : ℝ))
            (fun i => R i / (peakVal N (leftVal s) (rightVal s) : ℝ))⟩
  else s

/-- The normalized (left, right) output of a full pipeline invocation. -/
noncomputable def pipelineLR (p : Params) (cfg : FxConfig) (hp : (ℕ → ℝ) → ℕ → ℝ)
    (noise : ℕ → ℝ) : (ℕ → ℝ) × (ℕ → ℝ) :=
  (leftVal (normalizeState (sampleCount p.durationMin) (runChain p cfg hp noise)),
   rightVal (normalizeState (sampleCount p.durationMin) (runChain p cfg hp noise)))

/-- Two's-complement wrap of an integer into [-32768, 32767]. -/
def wrap16 (n : ℤ) : ℤ := (n + 32768) % 65536 - 32768

/-- C-style float-to-integer conversion: truncation toward zero. -/
noncomputable def truncZ (x : ℝ) : ℤ := if 0 ≤ x then ⌊x⌋ else ⌈x⌉

/-- np.int16(x * 32767): scale, truncate toward zero, wrap to 16 bits
(line 153). -/
noncomputable def toInt16 (x : ℝ) : ℤ := wrap16 (truncZ (x * 32767))

/-- np.stack((left, right), axis=-1) flattened row-major then converted
by np.int16: interleaved (left, right) sample pairs (lines 152-153). -/
noncomputable def encodePCM (N : ℕ) (l r : ℕ → ℝ) : List ℤ :=
  List.ofFn fun k : Fin (2 * N) =>
    if k.val % 2 = 0 then toInt16 (l (k.val / 2)) else toInt16 (r (k.val / 2))

/-- All effects off. -/
def cfgOff : FxConfig := ⟨false, false, false, false, false, false, false,
  false, false, false, false, false, false⟩

/-- Only the Noise Layer enabled. -/
def cfgNoiseOnly : FxConfig := ⟨false, false, false, false, false, false, false,
  false, false, false, false, false, true⟩

/-- Isochronic Pulses and Flanger enabled (panning off), the aliasing
scenario for the flanger claim. -/
def cfgPulsesFlanger : FxConfig := ⟨false, false, false, false, true, false, false,
  true, false, false, false, false, false⟩

/-- Stereo Panning and Flanger enabled. -/
def cfgPanFlanger : FxConfig := ⟨false, false, false, true, false, false, false,
  true, false, false, false, false, false⟩

/-- Only Isochronic Pulses enabled. -/
def cfgPulsesOnly : FxConfig := ⟨false, false, false, false, true, false, false,
  false, false, false, false, false, false⟩

/-- Only Binaural Beats enabled. -/
def cfgBinauralOnly : FxConfig := ⟨false, false, false, false, false, true, false,
  false, false, false, false, false, false⟩

/-- The default slider values of src/app.py (528/963/40 Hz, 5 minutes
shortened to 1, AM rate 0, pulse rate 10, difference 10). -/
noncomputable def pDefault : Params := ⟨528, 963, 40, 1, 0, 10, 10⟩

/-- Parameters with all three frequencies at 75 Hz, duration 1 minute,
pulse rate 10: at sample 3087 the base tone is exactly sin(π/2) = 1 while
the pulse gate is closed. -/
noncomputable def pSeventyFive : Params := ⟨75, 75, 75, 1, 0, 10, 10⟩

/-- The left/right names have been rebound away from the signal array. -/
def IsSplit (s : PyState) : Prop := ∃ L R, s.ch = Channels.split L R

/-- The linspace grid step collapses to 1/sample_rate: t[i] = i/44100. -/
theorem tGrid_eq (dm : ℕ) (h : 1 ≤ dm) (i : ℕ) : tGrid dm i = (i : ℝ) / 44100 := by
  have hdm : (dm : ℝ) ≠ 0 := Nat.cast_ne_zero.mpr (Nat.one_le_iff_ne_zero.mp h)
  unfold tGrid sampleCount durationSec
  push_cast
  field_simp
  ring

/-- The grid point 3087 of a 1-minute session is 3087/44100 = 7/100 s. -/
theorem tGrid_one_3087 : tGrid 1 3087 = 7 / 100 := by
  unfold tGrid sampleCount durationSec
  norm_num

/-- At 10 Hz the gate sine is negative at grid point 3087:
sin(2π·10·(7/100)) = sin(7π/5) = -sin(2π/5) < 0. -/
theorem sinGate3087_neg : Real.sin (2 * Real.pi * ((10 : ℕ) : ℝ) * tGrid 1 3087) < 0 := by
  rw [tGrid_one_3087]
  have hang : 2 * Real.pi * ((10 : ℕ) : ℝ) * (7 / 100) = 2 * Real.pi / 5 + Real.pi := by
    push_cast
    ring
  rw [hang, Real.sin_add_pi]
  have hpos : 0 < Real.sin (2 * Real.pi / 5) :=
    Real.sin_pos_of_pos_of_lt_pi (by positivity) (by nlinarith [Real.pi_pos])
  linarith

/-- With only the Noise Layer enabled, the twelve earlier steps leave the
initial state untouched. -/
theorem run12_noiseOnly : run12 pDefault cfgNoiseOnly id = initState pDefault := by
  unfold run12 run8 run7 run6 run5 run3
  unfold step1 step2 step3 step4 step5 step6 step7 step8 step9 step10 step11 step12
  simp [cfgNoiseOnly]

/-- The base signal starts at zero: all three sines vanish at t = 0. -/
theorem baseSignal_default_zero : (initState pDefault).sig 0 = 0 := by
  unfold initState baseSignal tGrid
  simp

/-- Claim C7: the ToneSynthesizer produces
mono[i] = (sin(2π f1 t[i]) + sin(2π f2 t[i]) + sin(2π f3 t[i])) / 3 with
t[i] = i / sample_rate, exactly (hence within the 1e-9 tolerance), and
left and right are initialized to this same mono signal. -/
theorem toneSynthesizer_spec (p : Params) (h : 1 ≤ p.durationMin) (i : ℕ) :
    tGrid p.durationMin i = (i : ℝ) / 44100 ∧
    (initState p).sig i =
      (Real.sin (2 * Real.pi * (p.freq1 : ℝ) * ((i : ℝ) / 44100)) +
       Real.sin (2 * Real.pi * (p.freq2 : ℝ) * ((i : ℝ) / 44100)) +
       Real.sin (2 * Real.pi * (p.freq3 : ℝ) * ((i : ℝ) / 44100))) / 3 ∧
    leftVal (initState p) i = (initState p).sig i ∧
    rightVal (initState p) i = (initState p).sig i := by
  refine ⟨tGrid_eq p.durationMin h i, ?_, rfl, rfl⟩
  simp only [initState, baseSignal, tGrid_eq p.durationMin h]

/-- Witness for C7 at the default parameters and sample 0. -/
theorem toneSynthesizer_spec_witness :
    tGrid pDefault.durationMin 0 = ((0 : ℕ) : ℝ) / 44100 ∧
    (initState pDefault).sig 0 =
      (Real.sin (2 * Real.pi * (pDefault.freq1 : ℝ) * (((0 : ℕ) : ℝ) / 44100)) +
       Real.sin (2 * Real.pi * (pDefault.freq2 : ℝ) * (((0 : ℕ) : ℝ) / 44100)) +
       Real.sin (2 * Real.pi * (pDefault.freq3 : ℝ) * (((0 : ℕ) : ℝ) / 44100))) / 3 ∧
    leftVal (initState pDefault) 0 = (initState pDefault).sig 0 ∧
    rightVal (initState pDefault) 0 = (initState pDefault).sig 0 :=
  toneSynthesizer_spec pDefault (Nat.le_refl 1) 0

/-- Claim C6: Binaural Beats overwrites both channels from scratch:
whatever the configuration of the earlier stages and the incoming buffer
state, after stage 6 left[i] = sin(2π f1 t[i]) (no dependency on
freq2/freq3 or prior effects) and right[i] = sin(2π (f1+diff) t[i]). -/
theorem binaural_overwrites (p : Params) (cfg : FxConfig) (h : cfg.binaural = true) (i : ℕ) :
    leftVal (run6 p cfg) i = Real.sin (2 * Real.pi * (p.freq1 : ℝ) * tGrid p.durationMin i) ∧
    rightVal (run6 p cfg) i =
      Real.sin (2 * Real.pi * ((p.freq1 : ℝ) + (p.bbDiff : ℝ)) * tGrid p.durationMin i) := by
  unfold run6 step6
  rw [if_pos h]
  exact ⟨rfl, rfl⟩

/-- Witness for C6: binaural enabled alone, default parameters, sample 0. -/
theorem binaural_overwrites_witness :
    leftVal (run6 pDefault cfgBinauralOnly) 0 =
      Real.sin (2 * Real.pi * (pDefault.freq1 : ℝ) * tGrid pDefault.durationMin 0) ∧
    rightVal (run6 pDefault cfgBinauralOnly) 0 =
      Real.sin (2 * Real.pi * ((pDefault.freq1 : ℝ) + (pDefault.bbDiff : ℝ)) *
        tGrid pDefault.durationMin 0) :=
  binaural_overwrites pDefault cfgBinauralOnly rfl 0

/-- Claim C8: with Isochronic Pulses enabled, at every index where
sin(2π pulse_rate t[i]) < 0 the gate is 0 and the output of stage 5 is
exactly zero on both channels, whatever the earlier stages did. -/
theorem pulses_gate_zero (p : Params) (cfg : FxConfig) (h : cfg.pulses = true) (i : ℕ)
    (hsin : Real.sin (2 * Real.pi * (p.pulseRate : ℝ) * tGrid p.durationMin i) < 0) :
    leftVal (run5 p cfg) i = 0 ∧ rightVal (run5 p cfg) i = 0 := by
  have hp : pulseArr p i = 0 := by
    unfold pulseArr npSign
    rw [if_pos hsin]
    ring
  unfold run5 step5
  rw [if_pos h]
  rcases hch : (step4 p cfg (run3 p cfg)).ch with _ | ⟨L, R⟩ <;>
    simp [stage5, leftVal, rightVal, hch, hp]

/-- Witness for C8: pulse rate 10, sample 3087 of a 1-minute session;
there sin(2π·10·(3087/44100)) = sin(7π/5) < 0. -/
theorem pulses_gate_zero_witness :
    leftVal (run5 pSeventyFive cfgPulsesOnly) 3087 = 0 ∧
    rightVal (run5 pSeventyFive cfgPulsesOnly) 3087 = 0 :=
  pulses_gate_zero pSeventyFive cfgPulsesOnly rfl 3087 (by
    show Real.sin (2 * Real.pi * ((10 : ℕ) : ℝ) * tGrid 1 3087) < 0
    exact sinGate3087_neg)

/-- Claim C3 (amended): the Noise Layer adds the SAME noise array to both
channels (one draw per sample, shared): the increment applied to left
always equals the increment applied to right (twice the draw when the
channels still alias the mono buffer, once each after a split). -/
theorem noise_same_both_channels (n : ℕ → ℝ) (s : PyState) (i : ℕ) :
    leftVal (stage13 n s) i - leftVal s i = rightVal (stage13 n s) i - rightVal s i := by
  obtain ⟨sig, ch⟩ := s
  cases ch <;> simp [stage13, leftVal, rightVal]

/-- Counterexample for C3 as stated: in a concrete noise-enabled run the
noise added to left at sample 0 equals the noise added to right (both
3/5, two in-place additions of the 3/10 draw to the shared buffer) —
the draws are not independent. -/
theorem noise_draws_counterexample :
    leftVal (runChain pDefault cfgNoiseOnly id fun _ => 3 / 10) 0
        - leftVal (run12 pDefault cfgNoiseOnly id) 0
      = rightVal (runChain pDefault cfgNoiseOnly id fun _ => 3 / 10) 0
        - rightVal (run12 pDefault cfgNoiseOnly id) 0 ∧
    leftVal (runChain pDefault cfgNoiseOnly id fun _ => 3 / 10) 0
        - leftVal (run12 pDefault cfgNoiseOnly id) 0 = 3 / 5 := by
  have hbase := baseSignal_default_zero
  unfold runChain step13
  rw [run12_noiseOnly]
  simp [cfgNoiseOnly, stage13, initState, leftVal, rightVal] at hbase ⊢
  rw [hbase]
  norm_num

/-- Every sample's magnitude is bounded by the peak over the buffer. -/
theorem abs_le_peakVal (N : ℕ) (l r : ℕ → ℝ) {i : ℕ} (hi : i < N) :
    |l i| ≤ (peakVal N l r : ℝ) ∧ |r i| ≤ (peakVal N l r : ℝ) := by
  have hsup : ‖l i‖₊ ⊔ ‖r i‖₊ ≤ peakVal N l r := by
    unfold peakVal
    exact @Finset.le_sup NNReal ℕ _ _ (Finset.range N) (fun j => ‖l j‖₊ ⊔ ‖r j‖₊) i
      (Finset.mem_range.mpr hi)
  constructor
  · have h1 : ‖l i‖₊ ≤ peakVal N l r := le_trans le_sup_left hsup
    calc |l i| = (‖l i‖₊ : ℝ) := by rw [coe_nnnorm, Real.norm_eq_abs]
      _ ≤ (peakVal N l r : ℝ) := NNReal.coe_le_coe.mpr h1
  · have h1 : ‖r i‖₊ ≤ peakVal N l r := le_trans le_sup_right hsup
    calc |r i| = (‖r i‖₊ : ℝ) := by rw [coe_nnnorm, Real.norm_eq_abs]
      _ ≤ (peakVal N l r : ℝ) := NNReal.coe_le_coe.mpr h1

/-- With non-positive peak the normalizer touches nothing. -/
theorem normalizeState_of_not_pos (N : ℕ) (s : PyState)
    (h : ¬ 0 < peakVal N (leftVal s) (rightVal s)) : normalizeState N s = s := by
  unfold normalizeState
  rw [if_neg h]

/-- On a still-aliased state with positive peak, the two in-place
divisions of lines 128-129 hit the single shared array twice. -/
theorem normalizeState_shared_val (N : ℕ) (f : ℕ → ℝ)
    (hpk : 0 < peakVal N f f) (i : ℕ) :
    leftVal (normalizeState N ⟨f, Channels.shared⟩) i =
      f i / (peakVal N f f : ℝ) / (peakVal N f f : ℝ) := by
  have hpk' : 0 < peakVal N (leftVal (⟨f, Channels.shared⟩ : PyState))
      (rightVal (⟨f, Channels.shared⟩ : PyState)) := hpk
  unfold normalizeState
  rw [if_pos hpk']
  rfl

/-- Stage 13 on a still-aliased state adds the draw twice to the shared
array. -/
theorem stage13_shared (n f : ℕ → ℝ) :
    stage13 n ⟨f, Channels.shared⟩ =
      ⟨fun i => f i + n i + n i, Channels.shared⟩ := rfl

/-- Claim C1 (amended): the claimed postcondition holds whenever the
final left/right buffers are separate arrays (a rebinding stage among
panning/binaural/lowpass/highpass/distortion ran): with positive peak
each channel is divided once, both channels land in [-1, 1] and the peak
magnitude 1 is attained at some sample; with zero peak the state is left
unchanged whatever the aliasing.  When left/right still alias the mono
buffer, the two in-place divisions instead divide the single shared
array twice, so the output is mono/peak² with final peak 1/peak — see
the counterexample. -/
theorem normalizer_spec (N : ℕ) (s : PyState) (hN : 0 < N) :
    (IsSplit s → 0 < peakVal N (leftVal s) (rightVal s) →
      (∀ i, i < N → |leftVal (normalizeState N s) i| ≤ 1 ∧
        |rightVal (normalizeState N s) i| ≤ 1) ∧
      ∃ i, i < N ∧
        max |leftVal (normalizeState N s) i| |rightVal (normalizeState N s) i| = 1) ∧
    (peakVal N (leftVal s) (rightVal s) = 0 → normalizeState N s = s) := by
  constructor
  · rintro ⟨L, R, hch⟩ hpk
    obtain ⟨sig, ch⟩ := s
    have hch' : ch = Channels.split L R := hch
    subst hch'
    have hpk2 : 0 < peakVal N L R := hpk
    have hpkR : (0 : ℝ) < (peakVal N L R : ℝ) := by exact_mod_cast hpk2
    have hl : ∀ i, leftVal (normalizeState N ⟨sig, Channels.split L R⟩) i =
        L i / (peakVal N L R : ℝ) := by
      intro i
      unfold normalizeState
      rw [if_pos hpk]
      rfl
    have hr : ∀ i, rightVal (normalizeState N ⟨sig, Channels.split L R⟩) i =
        R i / (peakVal N L R : ℝ) := by
      intro i
      unfold normalizeState
      rw [if_pos hpk]
      rfl
    constructor
    · intro i hi
      rw [hl i, hr i]
      obtain ⟨hla, hra⟩ := abs_le_peakVal N L R hi
      constructor
      · rw [abs_div, abs_of_pos hpkR]
        exact (div_le_one hpkR).mpr hla
      · rw [abs_div, abs_of_pos hpkR]
        exact (div_le_one hpkR).mpr hra
    · obtain ⟨i, hi, hival⟩ :=
        Finset.exists_mem_eq_sup (Finset.range N) ⟨0, Finset.mem_range.mpr hN⟩
          (fun i => ‖L i‖₊ ⊔ ‖R i‖₊)
      refine ⟨i, Finset.mem_range.mp hi, ?_⟩
      rw [hl i, hr i]
      have hmax : max |L i| |R i| = (peakVal N L R : ℝ) := by
        have h2 : peakVal N L R = ‖L i‖₊ ⊔ ‖R i‖₊ := hival
        rw [h2, sup_eq_max, NNReal.coe_max, coe_nnnorm, coe_nnnorm,
          Real.norm_eq_abs, Real.norm_eq_abs]
      have hmono : Monotone fun x : ℝ => x / (peakVal N L R : ℝ) :=
        fun a b hab => (div_le_div_right hpkR).mpr hab
      calc max |L i / (peakVal N L R : ℝ)| |R i / (peakVal N L R : ℝ)|
          = max (|L i| / (peakVal N L R : ℝ)) (|R i| / (peakVal N L R : ℝ)) := by
            rw [abs_div, abs_div, abs_of_pos hpkR]
        _ = max |L i| |R i| / (peakVal N L R : ℝ) := (hmono.map_max).symm
        _ = (peakVal N L R : ℝ) / (peakVal N L R : ℝ) := by rw [hmax]
        _ = 1 := div_self (ne_of_gt hpkR)
  · intro h0
    simp [normalizeState, h0]

/-- Witness for C1 (amended) on the one-sample split state with
left = [2], right = [-1]: the normalized samples are within [-1, 1]. -/
theorem normalizer_spec_witness :
    |leftVal (normalizeState 1
      ⟨fun _ => (0 : ℝ), Channels.split (fun _ => (2 : ℝ)) fun _ => (-1 : ℝ)⟩) 0| ≤ 1 ∧
    |rightVal (normalizeState 1
      ⟨fun _ => (0 : ℝ), Channels.split (fun _ => (2 : ℝ)) fun _ => (-1 : ℝ)⟩) 0| ≤ 1 :=
  ((normalizer_spec 1
      ⟨fun _ => (0 : ℝ), Channels.split (fun _ => (2 : ℝ)) fun _ => (-1 : ℝ)⟩ Nat.one_pos).1
    ⟨_, _, rfl⟩
    (by
      show 0 < peakVal 1 (fun _ => (2 : ℝ)) fun _ => (-1 : ℝ)
      unfold peakVal
      rw [Finset.range_one, Finset.sup_singleton]
      exact lt_of_lt_of_le (nnnorm_pos.mpr (by norm_num)) le_sup_left)).1 0 Nat.one_pos

/-- Counterexample for C1 as stated: a reachable run — Noise Layer only,
with a draw that cancels the base signal to the constant 1/2 — reaches
the normalizer with left/right still aliasing the mono buffer and peak
1/2 > 0.  The two in-place divisions then divide the shared array twice,
and the final output at sample 0 is (1/2)/(1/2)/(1/2) = 2, outside
[-1, 1] (so the final peak is 2, not 1). -/
theorem normalizer_counterexample :
    0 < peakVal (sampleCount pDefault.durationMin)
      (leftVal (runChain pDefault cfgNoiseOnly id fun i =>
        (1 / 2 - baseSignal pDefault i) / 2))
      (rightVal (runChain pDefault cfgNoiseOnly id fun i =>
        (1 / 2 - baseSignal pDefault i) / 2)) ∧
    (pipelineLR pDefault cfgNoiseOnly id fun i =>
        (1 / 2 - baseSignal pDefault i) / 2).1 0 = 2 := by
  have hN : 0 < sampleCount pDefault.durationMin := by decide
  have hchain : runChain pDefault cfgNoiseOnly id
      (fun i => (1 / 2 - baseSignal pDefault i) / 2) =
      ⟨fun _ => (1 / 2 : ℝ), Channels.shared⟩ := by
    have hon : cfgNoiseOnly.noiseLayer = true := rfl
    unfold runChain step13
    rw [run12_noiseOnly, if_pos hon]
    calc stage13 (fun i => (1 / 2 - baseSignal pDefault i) / 2) (initState pDefault)
        = ⟨fun i => baseSignal pDefault i + (1 / 2 - baseSignal pDefault i) / 2
            + (1 / 2 - baseSignal pDefault i) / 2, Channels.shared⟩ :=
          stage13_shared _ (baseSignal pDefault)
      _ = ⟨fun _ => (1 / 2 : ℝ), Channels.shared⟩ := by
          congr 1
          funext i
          ring
  have hpk : peakVal (sampleCount pDefault.durationMin)
      (fun _ => (1 / 2 : ℝ)) (fun _ => (1 / 2 : ℝ)) = ‖(1 / 2 : ℝ)‖₊ := by
    unfold peakVal
    have hconst : (fun i : ℕ => ‖(fun _ : ℕ => (1 / 2 : ℝ)) i‖₊ ⊔
        ‖(fun _ : ℕ => (1 / 2 : ℝ)) i‖₊) =
        fun _ : ℕ => ‖(1 / 2 : ℝ)‖₊ ⊔ ‖(1 / 2 : ℝ)‖₊ := rfl
    rw [hconst, Finset.sup_const ⟨0, Finset.mem_range.mpr hN⟩, sup_idem]
  have hpkpos : 0 < peakVal (sampleCount pDefault.durationMin)
      (fun _ => (1 / 2 : ℝ)) (fun _ => (1 / 2 : ℝ)) := by
    rw [hpk]
    exact nnnorm_pos.mpr (by norm_num)
  constructor
  · rw [hchain]
    exact hpkpos
  · unfold pipelineLR
    rw [hchain]
    show leftVal (normalizeState (sampleCount pDefault.durationMin)
      ⟨fun _ => (1 / 2 : ℝ), Channels.shared⟩) 0 = 2
    rw [normalizeState_shared_val _ _ hpkpos 0, hpk, coe_nnnorm, Real.norm_eq_abs,
      abs_of_nonneg (by norm_num : (0 : ℝ) ≤ 1 / 2)]
    norm_num


/-- Wrapping is the identity on values already in the int16 range. -/
theorem wrap16_eq_self {n : ℤ} (h1 : -32768 ≤ n) (h2 : n ≤ 32767) : wrap16 n = n := by
  unfold wrap16
  omega

/-- Truncation toward zero moves a real by strictly less than 1. -/
theorem truncZ_err (y : ℝ) : |y - (truncZ y : ℝ)| < 1 := by
  unfold truncZ
  by_cases h : 0 ≤ y
  · rw [if_pos h]
    have h1 := Int.floor_le y
    have h2 := Int.lt_floor_add_one y
    rw [abs_of_nonneg (by linarith)]
    linarith
  · rw [if_neg h]
    have h1 := Int.le_ceil y
    have h2 := Int.ceil_lt_add_one y
    rw [abs_of_nonpos (by linarith)]
    linarith

/-- Truncation stays inside a symmetric integer bound. -/
theorem truncZ_range {y : ℝ} {c : ℤ} (h : |y| ≤ (c : ℝ)) :
    -c ≤ truncZ y ∧ truncZ y ≤ c := by
  obtain ⟨hlo, hhi⟩ := abs_le.mp h
  unfold truncZ
  by_cases h0 : 0 ≤ y
  · rw [if_pos h0]
    refine ⟨Int.le_floor.mpr (by push_cast; linarith), ?_⟩
    have := Int.floor_mono hhi
    rwa [Int.floor_intCast] at this
  · rw [if_neg h0]
    refine ⟨?_, Int.ceil_le.mpr hhi⟩
    have h1 := Int.le_ceil y
    have : ((-c : ℤ) : ℝ) ≤ ((⌈y⌉ : ℤ) : ℝ) := by push_cast; linarith
    exact_mod_cast this

/-- Claim C4 (amended): the PCM encoder emits, per frame i < N, the
interleaved pair (trunc(left[i]*32767), trunc(right[i]*32767)) — C-cast
truncation toward zero, not rounding — with output length 2N (N frames,
no resampling), and for inputs in [-1, 1] no wrap occurs and decoding
back recovers each value within 1/32767. -/
theorem pcm_encoder_spec (N : ℕ) (l r : ℕ → ℝ)
    (hb : ∀ i, i < N → |l i| ≤ 1 ∧ |r i| ≤ 1) :
    (encodePCM N l r).length = 2 * N ∧
    ∀ i, i < N →
      (encodePCM N l r).get? (2 * i) = some (truncZ (l i * 32767)) ∧
      (encodePCM N l r).get? (2 * i + 1) = some (truncZ (r i * 32767)) ∧
      |l i - (truncZ (l i * 32767) : ℝ) / 32767| ≤ 1 / 32767 ∧
      |r i - (truncZ (r i * 32767) : ℝ) / 32767| ≤ 1 / 32767 := by
  have hsc : ∀ x : ℝ, |x| ≤ 1 → |x * 32767| ≤ ((32767 : ℤ) : ℝ) := by
    intro x hx
    rw [abs_mul, abs_of_pos (by norm_num : (0 : ℝ) < 32767)]
    push_cast
    nlinarith [abs_nonneg x]
  have h16 : ∀ x : ℝ, |x| ≤ 1 → toInt16 x = truncZ (x * 32767) := by
    intro x hx
    obtain ⟨hlo, hhi⟩ := truncZ_range (hsc x hx)
    unfold toInt16
    exact wrap16_eq_self (by linarith) hhi
  have herr : ∀ x : ℝ, |x - (truncZ (x * 32767) : ℝ) / 32767| ≤ 1 / 32767 := by
    intro x
    have h1 := truncZ_err (x * 32767)
    have h2 : x - (truncZ (x * 32767) : ℝ) / 32767 =
        (x * 32767 - (truncZ (x * 32767) : ℝ)) / 32767 := by ring
    rw [h2, abs_div, abs_of_pos (by norm_num : (0 : ℝ) < 32767)]
    exact (div_le_div_right (by norm_num)).mpr (le_of_lt h1)
  have hget : ∀ k : ℕ, k < 2 * N → (encodePCM N l r).get? k =
      some (if k % 2 = 0 then toInt16 (l (k / 2)) else toInt16 (r (k / 2))) := by
    intro k hk
    unfold encodePCM
    rw [List.get?_ofFn]
    simp [List.ofFnNthVal, hk]
  refine ⟨by simp [encodePCM], fun i hi => ?_⟩
  obtain ⟨hli, hri⟩ := hb i hi
  refine ⟨?_, ?_, herr (l i), herr (r i)⟩
  · rw [hget (2 * i) (by omega)]
    rw [if_pos (by omega : 2 * i % 2 = 0)]
    rw [(by omega : 2 * i / 2 = i), h16 (l i) hli]
  · rw [hget (2 * i + 1) (by omega)]
    rw [if_neg (by omega : ¬(2 * i + 1) % 2 = 0)]
    rw [(by omega : (2 * i + 1) / 2 = i), h16 (r i) hri]

/-- Witness for C4 on the one-frame buffers left = [3/5], right = [-1/2]:
the interleaved samples are the truncated scaled values. -/
theorem pcm_encoder_spec_witness :
    (encodePCM 1 (fun _ => (3 : ℝ) / 5) fun _ => -(1 : ℝ) / 2).get? 0 =
      some (truncZ ((3 : ℝ) / 5 * 32767)) ∧
    (encodePCM 1 (fun _ => (3 : ℝ) / 5) fun _ => -(1 : ℝ) / 2).get? 1 =
      some (truncZ (-(1 : ℝ) / 2 * 32767)) := by
  have h := (pcm_encoder_spec 1 (fun _ => (3 : ℝ) / 5) (fun _ => -(1 : ℝ) / 2)
    (fun i _ => by constructor <;> rw [abs_le] <;> constructor <;> norm_num)).2 0 Nat.one_pos
  exact ⟨h.1, h.2.1⟩

/-- Counterexample for C4 as stated: at the in-range sample x = 1/2 the
encoder emits trunc(16383.5) = 16383, whereas round(x*32767) = 16384 —
np.int16 truncates toward zero, it does not round. -/
theorem pcm_round_counterexample :
    (encodePCM 1 (fun _ => (1 : ℝ) / 2) (fun _ => (1 : ℝ) / 2)).get? 0 = some 16383 ∧
    round ((1 : ℝ) / 2 * 32767) = 16384 := by
  constructor
  · unfold encodePCM
    rw [List.get?_ofFn]
    have h0 : (0 : ℕ) < 2 * 1 := by norm_num
    simp only [List.ofFnNthVal, h0, dif_pos]
    norm_num
    unfold toInt16 truncZ wrap16
    rw [if_pos (by norm_num : (0 : ℝ) ≤ 1 / 2 * 32767)]
    have hf : ⌊(1 : ℝ) / 2 * 32767⌋ = 16383 := by
      rw [Int.floor_eq_iff]
      constructor <;> norm_num
    rw [hf]
    decide
  · rw [round_eq]
    have h1 : (1 : ℝ) / 2 * 32767 + 1 / 2 = ((16384 : ℤ) : ℝ) := by norm_num
    rw [h1, Int.floor_intCast]

/-- Claim C10: the int16 conversion does not saturate.  At the
out-of-range sample x = 3/2 > 1 the scaled value 49150.5 truncates to
49150 and wraps modulo 2^16 to -16386: a negative output for a positive
input, instead of clamping to 32767. -/
theorem pcm_wrap_no_saturation :
    (1 : ℝ) < 3 / 2 ∧ toInt16 (3 / 2) = -16386 ∧ toInt16 (3 / 2) < 0 := by
  have h : toInt16 (3 / 2) = -16386 := by
    unfold toInt16 truncZ wrap16
    rw [if_pos (by norm_num : (0 : ℝ) ≤ 3 / 2 * 32767)]
    have hf : ⌊(3 : ℝ) / 2 * 32767⌋ = 49150 := by
      rw [Int.floor_eq_iff]
      constructor <;> norm_num
    rw [hf]
    decide
  exact ⟨by norm_num, h, by rw [h]; norm_num⟩

/-- Stage 1 keeps left = right (it touches only the signal buffer, to
which both channels may alias). -/
theorem stage1_eqLR (p : Params) {s : PyState} (h : leftVal s = rightVal s) :
    leftVal (stage1 p s) = rightVal (stage1 p s) := by
  obtain ⟨sig, ch⟩ := s
  cases ch with
  | shared => rfl
  | split L R => exact h

/-- Stage 2 keeps left = right. -/
theorem stage2_eqLR {s : PyState} (h : leftVal s = rightVal s) :
    leftVal (stage2 s) = rightVal (stage2 s) := by
  obtain ⟨sig, ch⟩ := s
  cases ch with
  | shared => rfl
  | split L R => exact h

/-- Stage 3 keeps left = right. -/
theorem stage3_eqLR {s : PyState} (h : leftVal s = rightVal s) :
    leftVal (stage3 s) = rightVal (stage3 s) := by
  obtain ⟨sig, ch⟩ := s
  cases ch with
  | shared => rfl
  | split L R => exact h

/-- Stage 5 applies the same gate to both channels. -/
theorem stage5_eqLR (p : Params) {s : PyState} (h : leftVal s = rightVal s) :
    leftVal (stage5 p s) = rightVal (stage5 p s) := by
  obtain ⟨sig, ch⟩ := s
  cases ch with
  | shared => rfl
  | split L R =>
      have h' : L = R := h
      show (fun i => L i * pulseArr p i) = fun i => R i * pulseArr p i
      rw [h']

/-- Stage 7 applies the same transform to both channels. -/
theorem stage7_eqLR (N : ℕ) {s : PyState} (h : leftVal s = rightVal s) :
    leftVal (stage7 N s) = rightVal (stage7 N s) := by
  obtain ⟨sig, ch⟩ := s
  cases ch with
  | shared => rfl
  | split L R =>
      have h' : L = R := h
      show chorusOnce N L = chorusOnce N R
      rw [h']

/-- Stage 8 adds the same flanged array to both channels. -/
theorem stage8_eqLR (N : ℕ) {s : PyState} (h : leftVal s = rightVal s) :
    leftVal (stage8 N s) = rightVal (stage8 N s) := by
  obtain ⟨sig, ch⟩ := s
  cases ch with
  | shared => rfl
  | split L R =>
      have h' : L = R := h
      show (fun i => L i + flangedOf N sig i) = fun i => R i + flangedOf N sig i
      rw [h']

/-- Stage 9 applies the same tremolo to both channels. -/
theorem stage9_eqLR (p : Params) {s : PyState} (h : leftVal s = rightVal s) :
    leftVal (stage9 p s) = rightVal (stage9 p s) := by
  obtain ⟨sig, ch⟩ := s
  cases ch with
  | shared => rfl
  | split L R =>
      have h' : L = R := h
      show (fun i => L i * tremArr p i) = fun i => R i * tremArr p i
      rw [h']

/-- Stage 10 filters both channels with the same kernel. -/
theorem stage10_eqLR (N : ℕ) {s : PyState} (h : leftVal s = rightVal s) :
    leftVal (stage10 N s) = rightVal (stage10 N s) := by
  obtain ⟨sig, ch⟩ := s
  cases ch with
  | shared => rfl
  | split L R =>
      have h' : L = R := h
      show lowpassConv N L = lowpassConv N R
      rw [h']

/-- Stage 11 applies the same deterministic filter to both channels. -/
theorem stage11_eqLR (hp : (ℕ → ℝ) → ℕ → ℝ) {s : PyState} (h : leftVal s = rightVal s) :
    leftVal (stage11 hp s) = rightVal (stage11 hp s) := by
  obtain ⟨sig, ch⟩ := s
  cases ch with
  | shared => rfl
  | split L R =>
      have h' : L = R := h
      show hp L = hp R
      rw [h']

/-- Stage 12 distorts both channels identically. -/
theorem stage12_eqLR {s : PyState} (h : leftVal s = rightVal s) :
    leftVal (stage12 s) = rightVal (stage12 s) := by
  obtain ⟨sig, ch⟩ := s
  cases ch with
  | shared => rfl
  | split L R =>
      have h' : L = R := h
      show (fun i => Real.tanh (L i * 5)) = fun i => Real.tanh (R i * 5)
      rw [h']

/-- Stage 13 adds the same noise array to both channels. -/
theorem stage13_eqLR (n : ℕ → ℝ) {s : PyState} (h : leftVal s = rightVal s) :
    leftVal (stage13 n s) = rightVal (stage13 n s) := by
  obtain ⟨sig, ch⟩ := s
  cases ch with
  | shared => rfl
  | split L R =>
      have h' : L = R := h
      show (fun i => L i + n i) = fun i => R i + n i
      rw [h']

/-- Guarded stage 1 keeps left = right. -/
theorem step1_eqLR (p : Params) (cfg : FxConfig) {s : PyState} (h : leftVal s = rightVal s) :
    leftVal (step1 p cfg s) = rightVal (step1 p cfg s) := by
  unfold step1
  by_cases hc : cfg.am = true ∧ 0 < p.amRate
  · rw [if_pos hc]
    exact stage1_eqLR p h
  · rw [if_neg hc]
    exact h

/-- Guarded stage 2 keeps left = right. -/
theorem step2_eqLR (cfg : FxConfig) {s : PyState} (h : leftVal s = rightVal s) :
    leftVal (step2 cfg s) = rightVal (step2 cfg s) := by
  unfold step2
  by_cases hc : cfg.reverb = true
  · rw [if_pos hc]
    exact stage2_eqLR h
  · rw [if_neg hc]
    exact h

/-- Guarded stage 3 keeps left = right. -/
theorem step3_eqLR (cfg : FxConfig) {s : PyState} (h : leftVal s = rightVal s) :
    leftVal (step3 cfg s) = rightVal (step3 cfg s) := by
  unfold step3
  by_cases hc : cfg.echo = true
  · rw [if_pos hc]
    exact stage3_eqLR h
  · rw [if_neg hc]
    exact h

/-- When panning is disabled, step 4 is skipped and left = right holds on. -/
theorem step4_eqLR (p : Params) (cfg : FxConfig) {s : PyState} (hpan : cfg.panning = false)
    (h : leftVal s = rightVal s) :
    leftVal (step4 p cfg s) = rightVal (step4 p cfg s) := by
  unfold step4
  rw [hpan, if_neg Bool.false_ne_true]
  exact h

/-- Guarded stage 5 keeps left = right. -/
theorem step5_eqLR (p : Params) (cfg : FxConfig) {s : PyState} (h : leftVal s = rightVal s) :
    leftVal (step5 p cfg s) = rightVal (step5 p cfg s) := by
  unfold step5
  by_cases hc : cfg.pulses = true
  · rw [if_pos hc]
    exact stage5_eqLR p h
  · rw [if_neg hc]
    exact h

/-- When binaural is disabled, step 6 is skipped and left = right holds on. -/
theorem step6_eqLR (p : Params) (cfg : FxConfig) {s : PyState} (hbin : cfg.binaural = false)
    (h : leftVal s = rightVal s) :
    leftVal (step6 p cfg s) = rightVal (step6 p cfg s) := by
  unfold step6
  rw [hbin, if_neg Bool.false_ne_true]
  exact h

/-- Guarded stage 7 keeps left = right. -/
theorem step7_eqLR (p : Params) (cfg : FxConfig) {s : PyState} (h : leftVal s = rightVal s) :
    leftVal (step7 p cfg s) = rightVal (step7 p cfg s) := by
  unfold step7
  by_cases hc : cfg.chorus = true
  · rw [if_pos hc]
    exact stage7_eqLR _ h
  · rw [if_neg hc]
    exact h

/-- Guarded stage 8 keeps left = right. -/
theorem step8_eqLR (p : Params) (cfg : FxConfig) {s : PyState} (h : leftVal s = rightVal s) :
    leftVal (step8 p cfg s) = rightVal (step8 p cfg s) := by
  unfold step8
  by_cases hc : cfg.flanger = true
  · rw [if_pos hc]
    exact stage8_eqLR _ h
  · rw [if_neg hc]
    exact h

/-- Guarded stage 9 keeps left = right. -/
theorem step9_eqLR (p : Params) (cfg : FxConfig) {s : PyState} (h : leftVal s = rightVal s) :
    leftVal (step9 p cfg s) = rightVal (step9 p cfg s) := by
  unfold step9
  by_cases hc : cfg.tremolo = true
  · rw [if_pos hc]
    exact stage9_eqLR p h
  · rw [if_neg hc]
    exact h

/-- Guarded stage 10 keeps left = right. -/
theorem step10_eqLR (p : Params) (cfg : FxConfig) {s : PyState} (h : leftVal s = rightVal s) :
    leftVal (step10 p cfg s) = rightVal (step10 p cfg s) := by
  unfold step10
  by_cases hc : cfg.lowpass = true
  · rw [if_pos hc]
    exact stage10_eqLR _ h
  · rw [if_neg hc]
    exact h

/-- Guarded stage 11 keeps left = right. -/
theorem step11_eqLR (hp : (ℕ → ℝ) → ℕ → ℝ) (cfg : FxConfig) {s : PyState}
    (h : leftVal s = rightVal s) :
    leftVal (step11 hp cfg s) = rightVal (step11 hp cfg s) := by
  unfold step11
  by_cases hc : cfg.highpass = true
  · rw [if_pos hc]
    exact stage11_eqLR hp h
  · rw [if_neg hc]
    exact h

/-- Guarded stage 12 keeps left = right. -/
theorem step12_eqLR (cfg : FxConfig) {s : PyState} (h : leftVal s = rightVal s) :
    leftVal (step12 cfg s) = rightVal (step12 cfg s) := by
  unfold step12
  by_cases hc : cfg.distortion = true
  · rw [if_pos hc]
    exact stage12_eqLR h
  · rw [if_neg hc]
    exact h

/-- Guarded stage 13 keeps left = right. -/
theorem step13_eqLR (cfg : FxConfig) (n : ℕ → ℝ) {s : PyState} (h : leftVal s = rightVal s) :
    leftVal (step13 cfg n s) = rightVal (step13 cfg n s) := by
  unfold step13
  by_cases hc : cfg.noiseLayer = true
  · rw [if_pos hc]
    exact stage13_eqLR n h
  · rw [if_neg hc]
    exact h

/-- The normalizer keeps left = right: in the aliased case there is one
buffer, and in the split case both channels are divided by the same
peak. -/
theorem normalizeState_eqLR (N : ℕ) {s : PyState} (h : leftVal s = rightVal s) :
    leftVal (normalizeState N s) = rightVal (normalizeState N s) := by
  obtain ⟨sig, ch⟩ := s
  cases ch with
  | shared =>
      unfold normalizeState
      by_cases hpk : 0 < peakVal N (leftVal (⟨sig, Channels.shared⟩ : PyState))
          (rightVal (⟨sig, Channels.shared⟩ : PyState))
      · rw [if_pos hpk]
        rfl
      · rw [if_neg hpk]
        rfl
  | split L R =>
      have h' : L = R := h
      subst h'
      unfold normalizeState
      by_cases hpk : 0 < peakVal N (leftVal (⟨sig, Channels.split L L⟩ : PyState))
          (rightVal (⟨sig, Channels.split L L⟩ : PyState))
      · rw [if_pos hpk]
        rfl
      · rw [if_neg hpk]
        rfl

/-- Claim C9 (implicit): if neither Stereo Panning (#4) nor Binaural
Beats (#6) is enabled, the final left and right outputs are elementwise
identical (dual-mono): every remaining stage either mutates the shared
aliased buffer or applies the same transform to both channels, and the
normalizer divides both by the same peak. -/
theorem dual_mono_output (p : Params) (cfg : FxConfig) (hp : (ℕ → ℝ) → ℕ → ℝ)
    (n : ℕ → ℝ) (hpan : cfg.panning = false) (hbin : cfg.binaural = false) :
    (pipelineLR p cfg hp n).1 = (pipelineLR p cfg hp n).2 := by
  have hc : leftVal (runChain p cfg hp n) = rightVal (runChain p cfg hp n) := by
    unfold runChain run12 run8 run7 run6 run5 run3
    apply step13_eqLR
    apply step12_eqLR
    apply step11_eqLR
    apply step10_eqLR
    apply step9_eqLR
    apply step8_eqLR
    apply step7_eqLR
    apply step6_eqLR p cfg hbin
    apply step5_eqLR
    apply step4_eqLR p cfg hpan
    apply step3_eqLR
    apply step2_eqLR
    apply step1_eqLR
    rfl
  unfold pipelineLR
  show leftVal (normalizeState _ (runChain p cfg hp n)) =
    rightVal (normalizeState _ (runChain p cfg hp n))
  exact normalizeState_eqLR _ hc

/-- Witness for C9: all effects disabled, default parameters. -/
theorem dual_mono_output_witness :
    (pipelineLR pDefault cfgOff id fun _ => 0).1 =
      (pipelineLR pDefault cfgOff id fun _ => 0).2 :=
  dual_mono_output pDefault cfgOff id (fun _ => 0) rfl rfl

/-- Step 4 never mutates the signal buffer (it only rebinds left/right). -/
theorem step4_sig (p : Params) (cfg : FxConfig) (s : PyState) :
    (step4 p cfg s).sig = s.sig := by
  unfold step4
  by_cases hc : cfg.panning = true
  · rw [if_pos hc]
    rfl
  · rw [if_neg hc]

/-- Step 6 never mutates the signal buffer. -/
theorem step6_sig (p : Params) (cfg : FxConfig) (s : PyState) :
    (step6 p cfg s).sig = s.sig := by
  unfold step6
  by_cases hc : cfg.binaural = true
  · rw [if_pos hc]
    rfl
  · rw [if_neg hc]

/-- Step 5 leaves the signal buffer alone when it is skipped or when
left/right no longer alias it. -/
theorem step5_sig (p : Params) (cfg : FxConfig) {s : PyState}
    (h : cfg.pulses = false ∨ IsSplit s) : (step5 p cfg s).sig = s.sig := by
  unfold step5
  by_cases hc : cfg.pulses = true
  · rw [if_pos hc]
    rcases h with h | ⟨L, R, hch⟩
    · rw [hc] at h
      cases h
    · obtain ⟨sig, ch⟩ := s
      have hch' : ch = Channels.split L R := hch
      subst hch'
      rfl
  · rw [if_neg hc]

/-- Step 7 leaves the signal buffer alone when it is skipped or when
left/right no longer alias it. -/
theorem step7_sig (p : Params) (cfg : FxConfig) {s : PyState}
    (h : cfg.chorus = false ∨ IsSplit s) : (step7 p cfg s).sig = s.sig := by
  unfold step7
  by_cases hc : cfg.chorus = true
  · rw [if_pos hc]
    rcases h with h | ⟨L, R, hch⟩
    · rw [hc] at h
      cases h
    · obtain ⟨sig, ch⟩ := s
      have hch' : ch = Channels.split L R := hch
      subst hch'
      rfl
  · rw [if_neg hc]

/-- With panning enabled, step 4 leaves the channels split. -/
theorem step4_isSplit_of (p : Params) (cfg : FxConfig) (s : PyState)
    (h : cfg.panning = true) : IsSplit (step4 p cfg s) := by
  unfold step4
  rw [if_pos h]
  exact ⟨_, _, rfl⟩

/-- With binaural enabled, step 6 leaves the channels split. -/
theorem step6_isSplit_of (p : Params) (cfg : FxConfig) (s : PyState)
    (h : cfg.binaural = true) : IsSplit (step6 p cfg s) := by
  unfold step6
  rw [if_pos h]
  exact ⟨_, _, rfl⟩

/-- Step 5 keeps split channels split. -/
theorem step5_isSplit (p : Params) (cfg : FxConfig) {s : PyState}
    (h : IsSplit s) : IsSplit (step5 p cfg s) := by
  obtain ⟨L, R, hch⟩ := h
  unfold step5
  by_cases hc : cfg.pulses = true
  · rw [if_pos hc]
    obtain ⟨sig, ch⟩ := s
    have hch' : ch = Channels.split L R := hch
    subst hch'
    exact ⟨_, _, rfl⟩
  · rw [if_neg hc]
    exact ⟨L, R, hch⟩

/-- Step 6 keeps split channels split. -/
theorem step6_isSplit (p : Params) (cfg : FxConfig) {s : PyState}
    (h : IsSplit s) : IsSplit (step6 p cfg s) := by
  unfold step6
  by_cases hc : cfg.binaural = true
  · rw [if_pos hc]
    exact ⟨_, _, rfl⟩
  · rw [if_neg hc]
    exact h

/-- Claim C2 (amended): the flanged array equals rotate(mono₃, 400)·0.5
— mono₃ the signal after Echo (#3) — provided left/right no longer alias
the mono buffer whenever an in-place stage between #4 and #7 runs: if
Pulses (#5) is enabled then Panning (#4) must be, and if Chorus (#7) is
enabled then Panning or Binaural (#6) must be.  In particular with
Panning + Flanger the contribution is unaffected by panning's overwrite.
(Without that proviso, #5/#7 mutate the aliased mono in place and the
flanger reads the mutated buffer — see the counterexample.) -/
theorem flanger_reads_stage3_mono (p : Params) (cfg : FxConfig)
    (hfl : cfg.flanger = true)
    (H1 : cfg.pulses = true → cfg.panning = true)
    (H2 : cfg.chorus = true → cfg.panning = true ∨ cfg.binaural = true) :
    (run7 p cfg).sig = (run3 p cfg).sig ∧
    flangerContribution p cfg =
      flangedOf (sampleCount p.durationMin) (run3 p cfg).sig := by
  have hsig : (run7 p cfg).sig = (run3 p cfg).sig := by
    unfold run7 run6 run5
    cases hpan : cfg.panning with
    | true =>
        have h4 := step4_isSplit_of p cfg (run3 p cfg) hpan
        have h5 := step5_isSplit p cfg h4
        have h6 := step6_isSplit p cfg h5
        rw [step7_sig p cfg (Or.inr h6), step6_sig, step5_sig p cfg (Or.inr h4), step4_sig]
    | false =>
        have hpul : cfg.pulses = false := by
          cases hpul2 : cfg.pulses
          · rfl
          · rw [H1 hpul2] at hpan
            cases hpan
        cases hbin : cfg.binaural with
        | true =>
            have h6 := step6_isSplit_of p cfg
              (step5 p cfg (step4 p cfg (run3 p cfg))) hbin
            rw [step7_sig p cfg (Or.inr h6), step6_sig, step5_sig p cfg (Or.inl hpul),
              step4_sig]
        | false =>
            have hcho : cfg.chorus = false := by
              cases hcho2 : cfg.chorus
              · rfl
              · rcases H2 hcho2 with h | h
                · rw [h] at hpan
                  cases hpan
                · rw [h] at hbin
                  cases hbin
            rw [step7_sig p cfg (Or.inl hcho), step6_sig, step5_sig p cfg (Or.inl hpul),
              step4_sig]
  refine ⟨hsig, ?_⟩
  unfold flangerContribution
  rw [hsig]

/-- Witness for C2 (amended): Panning + Flanger enabled. -/
theorem flanger_reads_stage3_mono_witness :
    (run7 pDefault cfgPanFlanger).sig = (run3 pDefault cfgPanFlanger).sig ∧
    flangerContribution pDefault cfgPanFlanger =
      flangedOf (sampleCount pDefault.durationMin) (run3 pDefault cfgPanFlanger).sig :=
  flanger_reads_stage3_mono pDefault cfgPanFlanger rfl (fun _ => rfl) (fun _ => Or.inl rfl)

/-- Counterexample for C2 as stated: with Pulses + Flanger enabled (no
panning) the pulse stage mutates the aliased mono buffer in place, so at
output index 3487 the flanged array reads the gated sample 3087 — value
0 — while rotate(mono₃, 400)·0.5 there is 1/2. -/
theorem flanger_counterexample :
    flangerContribution pSeventyFive cfgPulsesFlanger 3487 ≠
      flangedOf (sampleCount 1) (run3 pSeventyFive cfgPulsesFlanger).sig 3487 := by
  have h3 : run3 pSeventyFive cfgPulsesFlanger = initState pSeventyFive := by
    unfold run3 step1 step2 step3
    simp [cfgPulsesFlanger]
  have hroll : rollIdx (sampleCount 1) 400 3487 = 3087 := by
    unfold rollIdx sampleCount durationSec
    norm_num
  have hbase : baseSignal pSeventyFive 3087 = 1 := by
    unfold baseSignal
    show (Real.sin (2 * Real.pi * ((75 : ℕ) : ℝ) * tGrid 1 3087) +
          Real.sin (2 * Real.pi * ((75 : ℕ) : ℝ) * tGrid 1 3087) +
          Real.sin (2 * Real.pi * ((75 : ℕ) : ℝ) * tGrid 1 3087)) / 3 = 1
    rw [tGrid_one_3087]
    have hang : 2 * Real.pi * ((75 : ℕ) : ℝ) * (7 / 100) =
        Real.pi / 2 + ((5 : ℤ) : ℝ) * (2 * Real.pi) := by
      push_cast
      ring
    rw [hang, Real.sin_add_int_mul_two_pi, Real.sin_pi_div_two]
    norm_num
  have hpulse : pulseArr pSeventyFive 3087 = 0 := by
    unfold pulseArr npSign
    have e1 : pSeventyFive.pulseRate = 10 := rfl
    have e2 : pSeventyFive.durationMin = 1 := rfl
    rw [e1, e2, if_pos sinGate3087_neg]
    ring
  have h7 : run7 pSeventyFive cfgPulsesFlanger = run5 pSeventyFive cfgPulsesFlanger := by
    unfold run7 run6 step6 step7
    simp [cfgPulsesFlanger]
  have h5sig : (run5 pSeventyFive cfgPulsesFlanger).sig 3087 = 0 := by
    unfold run5 step4 step5
    rw [h3]
    simp only [cfgPulsesFlanger, Bool.false_eq_true, if_false, if_true]
    show baseSignal pSeventyFive 3087 * pulseArr pSeventyFive 3087 *
      pulseArr pSeventyFive 3087 = 0
    rw [hpulse]
    ring
  have hL : flangerContribution pSeventyFive cfgPulsesFlanger 3487 = 0 := by
    unfold flangerContribution flangedOf
    show (run7 pSeventyFive cfgPulsesFlanger).sig (rollIdx (sampleCount 1) 400 3487) * 0.5 = 0
    rw [hroll, h7, h5sig]
    ring
  have hR : flangedOf (sampleCount 1) (run3 pSeventyFive cfgPulsesFlanger).sig 3487 = 1 / 2 := by
    unfold flangedOf
    rw [hroll, h3]
    show baseSignal pSeventyFive 3087 * 0.5 = 1 / 2
    rw [hbase]
    norm_num
  rw [hL, hR]
  norm_num

/-- The base signal at sample 0 is zero. -/
theorem baseSignal_default_zero_fn : baseSignal pDefault 0 = 0 := by
  have h := baseSignal_default_zero
  simpa [initState] using h

/-- Claim C5 (amended): the pipeline is deterministic given its inputs
AND the RNG stream the Noise Layer consumes; in particular, with the
Noise Layer disabled the outputs do not depend on the noise stream at
all.  (With it enabled two runs draw different unseeded noise and
produce different buffers — see the counterexample.) -/
theorem pipeline_deterministic_without_noise (p : Params) (cfg : FxConfig)
    (hp : (ℕ → ℝ) → ℕ → ℝ) (n₁ n₂ : ℕ → ℝ) (h : cfg.noiseLayer = false) :
    pipelineLR p cfg hp n₁ = pipelineLR p cfg hp n₂ := by
  unfold pipelineLR runChain step13
  rw [h]
  simp only [if_neg Bool.false_ne_true]

/-- Witness for C5 (amended): all effects off, two different noise
streams, identical outputs. -/
theorem pipeline_deterministic_without_noise_witness :
    pipelineLR pDefault cfgOff id (fun _ => 0) = pipelineLR pDefault cfgOff id fun _ => 1 :=
  pipeline_deterministic_without_noise pDefault cfgOff id (fun _ => 0) (fun _ => 1) rfl

/-- Counterexample for C5 as stated: same SessionParams and EffectConfig
(Noise Layer enabled), but the two runs' unseeded RNG draws differ
(streams 0 and 1) and the final normalized left buffers differ at
sample 0 (0 versus a positive value) — the pipeline is not a pure
function of params and config alone. -/
theorem purity_counterexample :
    (pipelineLR pDefault cfgNoiseOnly id fun _ => 0).1 0 ≠
      (pipelineLR pDefault cfgNoiseOnly id fun _ => 1).1 0 := by
  have hbase0 := baseSignal_default_zero_fn
  have hN : 0 < sampleCount pDefault.durationMin := by decide
  have hon : cfgNoiseOnly.noiseLayer = true := rfl
  have hchA : runChain pDefault cfgNoiseOnly id (fun _ => (0 : ℝ)) =
      ⟨fun i => baseSignal pDefault i + 0 + 0, Channels.shared⟩ := by
    unfold runChain step13
    rw [run12_noiseOnly, if_pos hon]
    exact stage13_shared _ (baseSignal pDefault)
  have hchB : runChain pDefault cfgNoiseOnly id (fun _ => (1 : ℝ)) =
      ⟨fun i => baseSignal pDefault i + 1 + 1, Channels.shared⟩ := by
    unfold runChain step13
    rw [run12_noiseOnly, if_pos hon]
    exact stage13_shared _ (baseSignal pDefault)
  have hfA0 : (fun i => baseSignal pDefault i + 0 + 0) 0 = 0 := by
    show baseSignal pDefault 0 + 0 + 0 = 0
    rw [hbase0]
    norm_num
  have hA : (pipelineLR pDefault cfgNoiseOnly id fun _ => 0).1 0 = 0 := by
    unfold pipelineLR
    rw [hchA]
    show leftVal (normalizeState (sampleCount pDefault.durationMin)
      ⟨fun i => baseSignal pDefault i + 0 + 0, Channels.shared⟩) 0 = 0
    by_cases hpk : 0 < peakVal (sampleCount pDefault.durationMin)
        (fun i => baseSignal pDefault i + 0 + 0) (fun i => baseSignal pDefault i + 0 + 0)
    · rw [normalizeState_shared_val _ _ hpk 0, hbase0]
      norm_num
    · rw [normalizeState_of_not_pos (sampleCount pDefault.durationMin)
        ⟨fun i => baseSignal pDefault i + 0 + 0, Channels.shared⟩ hpk]
      exact hfA0
  have hBpos : 0 < (pipelineLR pDefault cfgNoiseOnly id fun _ => 1).1 0 := by
    unfold pipelineLR
    rw [hchB]
    show 0 < leftVal (normalizeState (sampleCount pDefault.durationMin)
      ⟨fun i => baseSignal pDefault i + 1 + 1, Channels.shared⟩) 0
    have habs := (abs_le_peakVal (sampleCount pDefault.durationMin)
        (fun i => baseSignal pDefault i + 1 + 1)
        (fun i => baseSignal pDefault i + 1 + 1) hN).1
    rw [hbase0] at habs
    have h2 : (2 : ℝ) ≤ (peakVal (sampleCount pDefault.durationMin)
        (fun i => baseSignal pDefault i + 1 + 1)
        (fun i => baseSignal pDefault i + 1 + 1) : ℝ) := by
      norm_num [abs_two] at habs
      exact habs
    have hpkR : (0 : ℝ) < (peakVal (sampleCount pDefault.durationMin)
        (fun i => baseSignal pDefault i + 1 + 1)
        (fun i => baseSignal pDefault i + 1 + 1) : ℝ) :=
      lt_of_lt_of_le two_pos h2
    have hpk : 0 < peakVal (sampleCount pDefault.durationMin)
        (fun i => baseSignal pDefault i + 1 + 1)
        (fun i => baseSignal pDefault i + 1 + 1) := by
      exact_mod_cast hpkR
    rw [normalizeState_shared_val _ _ hpk 0, hbase0]
    have h2' : (0 : ℝ) + 1 + 1 = 2 := by norm_num
    rw [h2']
    exact div_pos (div_pos two_pos hpkR) hpkR
  rw [hA]
  exact ne_of_lt hBpos

end SoundLab
